import Mathlib

/-!
Verification of the password generator `gen-pw-rs` (`src/main.rs`) against its
natural-language specification. The Rust source is shallowly embedded below:
strings become `List Char` with Rust's byte length modelled by `byteLen`
(`String::len` counts UTF-8 bytes), the thread-local random number generator
becomes an abstract stream `Rng : Nat → Nat` together with an explicit read
position (each uniform draw consumes one stream value), fallible operations
return `Option`, `unwrap` on `none` becomes an explicit `panicked` outcome, and
the two potentially non-terminating loops (`do_gen`'s length-building loop and
the dictionary strategy's resampling loop) take an explicit fuel argument with
a dedicated `fuelOut` outcome, so that every terminating run of the source is
reproduced by the model at sufficiently large fuel and divergence shows up as
`fuelOut` at every fuel.
-/

namespace GenPw

/-- Random source: an infinite stream of naturals, read at an explicit,
monotonically advancing position. -/
abbrev Rng := Nat → Nat

/-- The four constraint kinds of `enum Constraint` in `src/main.rs`. -/
inductive Constraint where
| LowerCaseLetter
| UpperCaseLetter
| Number
| Symbol
deriving DecidableEq, Repr

/-- `Constraint::value_variants()` as produced by the `ValueEnum` derive:
the variants in declaration order. -/
def Constraint.value_variants : List Constraint :=
[.LowerCaseLetter, .UpperCaseLetter, .Number, .Symbol]

/-- Rust `String::len`: the number of UTF-8 bytes of the string. -/
def byteLen (s : List Char) : Nat := (s.map Char.utf8Size).sum

/-- A half-open Rust character range `lo..hi` (start, exclusive end). -/
abbrev CharRange := Char × Char

/-- `Range<char>::contains(&c)`: `lo <= c && c < hi` (exclusive upper bound). -/
def rangeContains (r : CharRange) (c : Char) : Bool :=
decide (r.1 ≤ c ∧ c < r.2)

/-- The elements produced by iterating a Rust `Range<char>` `lo..hi`:
the characters with code points `lo, lo+1, ..., hi-1` (so `hi` itself is
never produced). The source ranges are ASCII, so code-point stepping agrees
with Rust's `Step for char`. -/
def rangeList (r : CharRange) : List Char :=
(List.range (r.2.toNat - r.1.toNat)).map (fun k => Char.ofNat (r.1.toNat + k))

/-- `const LOWER_CASE_LETTERS: Range<char> = 'a'..'z';` -/
def LOWER_CASE_LETTERS : CharRange := ('a', 'z')

/-- `const UPPER_CASE_LETTERS: Range<char> = 'A'..'Z';` -/
def UPPER_CASE_LETTERS : CharRange := ('A', 'Z')

/-- `const NUMBERS: Range<char> = '0'..'9';` -/
def NUMBERS : CharRange := ('0', '9')

/-- `const SYMBOLS` (the `{` and `}` characters written as escapes). -/
def SYMBOLS : List Char := "-_/[]\x7b\x7d()*&^%$#@.!?=+:;|~".toList

/-- The fields of `struct Opts` consumed by the core generator. -/
structure Opts where
  min : Nat
  max : Nat
  require : List Constraint
  exclude : List Constraint
  symbols : List Char
  tries : Nat

/-- `Constraint::verify(self, opts, s)`: does `s` contain at least one
character of the constraint's class (`s.chars().any(...)`)? -/
def Constraint.verify (c : Constraint) (opts : Opts) (s : List Char) : Bool :=
s.any fun ch =>
  match c with
  | .LowerCaseLetter => rangeContains LOWER_CASE_LETTERS ch
  | .UpperCaseLetter => rangeContains UPPER_CASE_LETTERS ch
  | .Number => rangeContains NUMBERS ch
  | .Symbol => opts.symbols.contains ch

/-- One uniform draw from a finite collection, as performed by
`SliceRandom::choose` / `IteratorRandom::choose`: `none` (consuming no
randomness) on an empty collection, otherwise the element at the drawn
index and the advanced read position. -/
def chooseUniform {α : Type} (l : List α) (g : Rng) (i : Nat) : Option α × Nat :=
match l with
| [] => (none, i)
| _ :: _ => (l.get? (g i % l.length), i + 1)

/-- The letter-picking callback `F` of `do_gen`: given the candidate so far,
the random stream and position, and the `is_lowercase` flag, it either
fails (`none`, Rust's `?`-propagated `None`) or returns the extended
candidate and the new read position. -/
abbrev Strategy := List Char → Rng → Nat → Bool → Option (List Char) × Nat

/-- Outcome of dispatching one chosen constraint inside `do_gen`'s
`while` loop body. -/
inductive StepRes where
| cont (s : List Char) (pos : Nat)
| aborted (pos : Nat)
| panicked
deriving DecidableEq, Repr

/-- The body of the `match required.choose(rng).unwrap() { ... }` dispatch in
`do_gen`: letters delegate to the strategy (whose `None` aborts the attempt
via `?`), `Symbol` pushes one uniformly chosen character of `opts.symbols`
(`unwrap` panics when `opts.symbols` is empty), `Number` pushes one uniformly
chosen character of the range `'0'..'9'`. -/
def constraintStep (opts : Opts) (pick : Strategy) (c : Constraint)
    (s : List Char) (g : Rng) (i : Nat) : StepRes :=
match c with
| .LowerCaseLetter =>
  match pick s g i true with
  | (some s', i') => .cont s' i'
  | (none, i') => .aborted i'
| .UpperCaseLetter =>
  match pick s g i false with
  | (some s', i') => .cont s' i'
  | (none, i') => .aborted i'
| .Symbol =>
  match chooseUniform opts.symbols g i with
  | (some ch, i') => .cont (s ++ [ch]) i'
  | (none, _) => .panicked
| .Number =>
  match chooseUniform (rangeList NUMBERS) g i with
  | (some ch, i') => .cont (s ++ [ch]) i'
  | (none, _) => .panicked

/-- Outcome of `do_gen`'s candidate-building `while s.len() < opts.min` loop. -/
inductive BuildRes where
| done (s : List Char) (pos : Nat)
| strategyAbort (pos : Nat)
| panicked
| fuelOut
deriving DecidableEq, Repr

/-- The `while s.len() < opts.min` loop of `do_gen`, with fuel. Each
iteration draws one constraint uniformly from `required`
(`required.choose(rng).unwrap()`: panic when `required` is empty) and
dispatches it via `constraintStep`. -/
def build (opts : Opts) (required : List Constraint) (pick : Strategy) :
    Nat → List Char → Rng → Nat → BuildRes
| 0, s, _, i => if byteLen s < opts.min then .fuelOut else .done s i
| fuel + 1, s, g, i =>
  if byteLen s < opts.min then
    match required.get? (g i % required.length) with
    | none => .panicked
    | some c =>
      match constraintStep opts pick c s g (i + 1) with
      | .cont s' i' => build opts required pick fuel s' g i'
      | .aborted i' => .strategyAbort i'
      | .panicked => .panicked
  else .done s i

/-- The acceptance test of `do_gen`:
`s.len() <= opts.max && !required.iter().any(|c| !c.verify(opts, &s))`. -/
def judgement (opts : Opts) (required : List Constraint) (s : List Char) : Bool :=
decide (byteLen s ≤ opts.max) && !(required.any fun c => !(c.verify opts s))

/-- Outcome of one attempt: the closure passed to `std::iter::repeat_with`.
`failed` covers both a candidate rejected by `judgement` and an attempt
aborted by strategy failure (both yield `None` items in the source). -/
inductive AttemptRes where
| success (s : List Char) (pos : Nat)
| failed (pos : Nat)
| panicked
| fuelOut
deriving DecidableEq, Repr

/-- One attempt of `do_gen`: build a fresh candidate from the empty string,
then keep it exactly when `judgement` holds (`judgement.then_some(s)`). -/
def attempt (opts : Opts) (required : List Constraint) (pick : Strategy)
    (fuel : Nat) (g : Rng) (i : Nat) : AttemptRes :=
match build opts required pick fuel [] g i with
| .done s i' => if judgement opts required s then .success s i' else .failed i'
| .strategyAbort i' => .failed i'
| .panicked => .panicked
| .fuelOut => .fuelOut

/-- Result of `do_gen`: `ok` carries the accepted string and the 1-based
attempt count (`actual_tries`); `exhausted` carries the attempt budget
printed by the `expect` message when `opts.tries` attempts all fail. -/
inductive GenRes where
| ok (s : List Char) (count : Nat)
| exhausted (budget : Nat)
| panicked
| fuelOut
deriving DecidableEq, Repr

/-- The `repeat_with(...).take(opts.tries).find_map(...)` pipeline of
`do_gen`: `n` attempts remain, `k` attempts have already been consumed. -/
def doGenAux (opts : Opts) (required : List Constraint) (pick : Strategy)
    (fuel : Nat) : Nat → Nat → Rng → Nat → GenRes
| 0, _, _, _ => .exhausted opts.tries
| n + 1, k, g, i =>
  match attempt opts required pick fuel g i with
  | .success s _ => .ok s (k + 1)
  | .failed i' => doGenAux opts required pick fuel n (k + 1) g i'
  | .panicked => .panicked
  | .fuelOut => .fuelOut

/-- `do_gen(opts, required, pick_letters)`: up to `opts.tries` attempts,
starting with zero attempts consumed and a fresh random read position. -/
def do_gen (opts : Opts) (required : List Constraint) (pick : Strategy)
    (fuel : Nat) (g : Rng) : GenRes :=
doGenAux opts required pick fuel opts.tries 0 g 0

/-- The `Command::Chars` letter-picking closure: push one uniformly chosen
character of `LOWER_CASE_LETTERS` or `UPPER_CASE_LETTERS`. The `none` branch
is unreachable (both ranges are non-empty; the source `unwrap`s). -/
def charsStrategy : Strategy := fun s g i isLower =>
match chooseUniform
    (rangeList (if isLower then LOWER_CASE_LETTERS else UPPER_CASE_LETTERS)) g i with
| (some ch, i') => (some (s ++ [ch]), i')
| (none, i') => (none, i')

/-- Bitwise complement of a 64-bit `usize` value: `!n = 2^64 - 1 - n`. -/
def usizeNot (n : Nat) : Nat := 2 ^ 64 - 1 - n

/-- The word filter of dictionary mode, exactly as written in the source:
`!s.contains('\'') && !s.is_empty() && !s.len() > opts.max`. In Rust, unary
`!` binds tighter than `>`, so the third conjunct compares the bitwise
complement of the byte length against `opts.max`. -/
def wordFilter (maxLen : Nat) (w : List Char) : Bool :=
!(w.contains (Char.ofNat 39)) && !(w.isEmpty) && decide (usizeNot (byteLen w) > maxLen)

/-- The word-list construction in `main`'s dictionary branch: keep exactly
the words passing `wordFilter`. -/
def filterWords (maxLen : Nat) (ws : List (List Char)) : List (List Char) :=
ws.filter (wordFilter maxLen)

/-- Outcome of the dictionary letter-picking closure. -/
inductive PickRes where
| success (s : List Char) (pos : Nat)
| aborted (pos : Nat)
| panicked
| fuelOut
deriving DecidableEq, Repr

/-- The `Command::Dict` letter-picking closure, with fuel for its
resampling loop. `std::iter::from_fn(|| words.choose(rng))` ends (yielding
`None`, propagated by `?` as `aborted`) exactly when `words` is empty;
otherwise it resamples until the drawn word fits the remaining byte budget
(`w.len() + s.len() <= opts.max`). On success the word's first character is
replaced by its requested-case folding (`char::to_lowercase` /
`char::to_uppercase` yield character sequences, modelled by the abstract
fold functions `lf` and `uf`) and the remaining characters are appended
verbatim. `chars.next().unwrap()` on an empty word panics. -/
def dictPick (words : List (List Char)) (maxLen : Nat)
    (lf uf : Char → List Char) :
    Nat → List Char → Rng → Nat → Bool → PickRes
| 0, _, _, _, _ => .fuelOut
| fuel + 1, s, g, i, isLower =>
  match chooseUniform words g i with
  | (none, i') => .aborted i'
  | (some w, i') =>
    if byteLen w + byteLen s ≤ maxLen then
      match w with
      | [] => .panicked
      | first :: rest =>
        .success (s ++ (if isLower then lf first else uf first) ++ rest) i'
    else dictPick words maxLen lf uf fuel s g i' isLower

/-- The computation of `required` in `main`: start from
`Constraint::value_variants()` when `opts.require` is empty, else from
`opts.require`, and drop every constraint contained in `opts.exclude`. -/
def effective_required (opts : Opts) : List Constraint :=
(if opts.require.isEmpty then Constraint.value_variants else opts.require).filter
  (fun c => !(opts.exclude.contains c))

/-- The random read position reached after a run of `j` consecutive failed
attempts starting at position `i` (`none` if one of those attempts is not a
failure). Used to phrase "the first `j` attempts are all rejected or
strategy-aborted". -/
def failRun (opts : Opts) (required : List Constraint) (pick : Strategy)
    (fuel : Nat) (g : Rng) : Nat → Nat → Option Nat
| 0, i => some i
| j + 1, i =>
  match attempt opts required pick fuel g i with
  | .failed i' => failRun opts required pick fuel g j i'
  | _ => none

/-- Test fixture: `min 1, max 5, symbols "!", tries 3`. -/
def sampleOpts : Opts := ⟨1, 5, [], [], ['!'], 3⟩

/-- Test fixture with `min > max`, so every attempt is rejected. -/
def rejectingOpts : Opts := ⟨3, 2, [], [], [], 2⟩

/-- Test fixture with an empty symbol alphabet. -/
def emptySymbolOpts : Opts := ⟨1, 5, [], [], [], 3⟩

/-- The 26-letter ASCII alphabet as a word. -/
def alphabetWord : List Char := "abcdefghijklmnopqrstuvwxyz".toList

/-- A four-byte word, which cannot fit a three-byte budget. -/
def unfittingWord : List Char := ['a', 'b', 'c', 'd']

/-- A trivial concrete case-folding function for instantiating theorems. -/
def idFold (c : Char) : List Char := [c]

end GenPw


namespace GenPw

theorem chooseUniform_some_mem {α : Type} {l : List α} {g : Rng} {i i' : Nat} {a : α}
    (h : chooseUniform l g i = (some a, i')) : a ∈ l := by
  cases l with
  | nil => simp [chooseUniform] at h
  | cons x xs =>
    simp only [chooseUniform] at h
    rw [Prod.mk.injEq] at h
    exact List.get?_mem h.1

theorem chooseUniform_ne_nil {α : Type} (l : List α) (hne : l ≠ []) (g : Rng) (i : Nat) :
    ∃ a, chooseUniform l g i = (some a, i + 1) ∧ a ∈ l := by
  cases l with
  | nil => exact absurd rfl hne
  | cons x xs =>
    have hlt : g i % (x :: xs).length < (x :: xs).length :=
      Nat.mod_lt _ (by simp)
    refine ⟨(x :: xs).get ⟨g i % (x :: xs).length, hlt⟩, ?_, List.get_mem _ _ hlt⟩
    simp [chooseUniform, List.get?_eq_get hlt]

theorem lower_range_bounds :
    ∀ c ∈ rangeList LOWER_CASE_LETTERS, 'a' ≤ c ∧ c < 'z' ∧ c ≠ 'z' ∧ c ≠ 'Z' := by
  decide

theorem upper_range_bounds :
    ∀ c ∈ rangeList UPPER_CASE_LETTERS, 'A' ≤ c ∧ c < 'Z' ∧ c ≠ 'z' ∧ c ≠ 'Z' := by
  decide

theorem numbers_range_bounds :
    ∀ c ∈ rangeList NUMBERS, '0' ≤ c ∧ c < '9' ∧ c ≠ '9' := by
  decide

theorem build_done_min (opts : Opts) (required : List Constraint) (pick : Strategy) :
    ∀ fuel s g i s' i', build opts required pick fuel s g i = .done s' i' →
      opts.min ≤ byteLen s' := by
  intro fuel
  induction fuel with
  | zero =>
    intro s g i s' i' h
    simp only [build] at h
    split at h
    · simp at h
    · injection h with h1 h2
      subst h1
      omega
  | succ fuel ih =>
    intro s g i s' i' h
    simp only [build] at h
    split at h
    · split at h
      · simp at h
      · split at h
        · exact ih _ g _ s' i' h
        · simp at h
        · simp at h
    · injection h with h1 h2
      subst h1
      omega

theorem judgement_true (opts : Opts) (required : List Constraint) (s : List Char)
    (h : judgement opts required s = true) :
    byteLen s ≤ opts.max ∧ ∀ c ∈ required, c.verify opts s = true := by
  simp only [judgement, Bool.and_eq_true, decide_eq_true_eq, Bool.not_eq_true',
    List.any_eq_false, Bool.not_eq_false] at h
  exact h

theorem attempt_success_spec (opts : Opts) (required : List Constraint) (pick : Strategy)
    (fuel : Nat) (g : Rng) (i : Nat) (s : List Char) (i' : Nat)
    (h : attempt opts required pick fuel g i = .success s i') :
    opts.min ≤ byteLen s ∧ byteLen s ≤ opts.max ∧
      ∀ c ∈ required, c.verify opts s = true := by
  simp only [attempt] at h
  revert h
  cases hb : build opts required pick fuel [] g i with
  | done s0 i0 =>
    intro h
    dsimp only at h
    cases hj : judgement opts required s0 with
    | false => rw [hj] at h; simp at h
    | true =>
      rw [hj] at h
      simp at h
      obtain ⟨h1, h2⟩ := h
      subst h1
      obtain ⟨hmax, hver⟩ := judgement_true opts required s0 hj
      exact ⟨build_done_min opts required pick fuel [] g i s0 i0 hb, hmax, hver⟩
  | strategyAbort i0 => intro h; simp at h
  | panicked => intro h; simp at h
  | fuelOut => intro h; simp at h

theorem doGenAux_ok_attempt (opts : Opts) (required : List Constraint) (pick : Strategy)
    (fuel : Nat) (g : Rng) :
    ∀ n k i s m, doGenAux opts required pick fuel n k g i = .ok s m →
      ∃ a b, attempt opts required pick fuel g a = .success s b := by
  intro n
  induction n with
  | zero => intro k i s m h; simp [doGenAux] at h
  | succ n ih =>
    intro k i s m h
    simp only [doGenAux] at h
    cases ha : attempt opts required pick fuel g i with
    | success s0 p =>
      rw [ha] at h
      simp at h
      obtain ⟨h1, h2⟩ := h
      subst h1
      exact ⟨i, p, ha⟩
    | failed i' => rw [ha] at h; exact ih (k + 1) i' s m h
    | panicked => rw [ha] at h; simp at h
    | fuelOut => rw [ha] at h; simp at h

end GenPw

namespace GenPw

/-- Claim C1: for every candidate accepted by the generation loop `do_gen`
(with any letter-picking strategy), the length of the returned password is at
least `opts.min` and at most `opts.max`. -/
theorem do_gen_length_bounds (opts : Opts) (required : List Constraint)
    (pick : Strategy) (fuel : Nat) (g : Rng) (s : List Char) (m : Nat)
    (h : do_gen opts required pick fuel g = .ok s m) :
    opts.min ≤ byteLen s ∧ byteLen s ≤ opts.max := by
  obtain ⟨a, b, ha⟩ :=
    doGenAux_ok_attempt opts required pick fuel g opts.tries 0 0 s m h
  have hs := attempt_success_spec opts required pick fuel g a s b ha
  exact ⟨hs.1, hs.2.1⟩

/-- Concrete instance of `do_gen_length_bounds`. -/
theorem do_gen_length_bounds_witness :
    sampleOpts.min ≤ byteLen ['0'] ∧ byteLen ['0'] ≤ sampleOpts.max :=
  do_gen_length_bounds sampleOpts [.Number] charsStrategy 10 (fun _ => 0) ['0'] 1
    (by decide)

/-- Claim C2: for every accepted output of `do_gen` and every constraint in
the required list passed to it, the constraint's verification predicate
(`Constraint::verify`: the output contains at least one character of the
constraint's class) holds on the output. -/
theorem do_gen_constraints_verified (opts : Opts) (required : List Constraint)
    (pick : Strategy) (fuel : Nat) (g : Rng) (s : List Char) (m : Nat)
    (h : do_gen opts required pick fuel g = .ok s m) :
    ∀ c ∈ required, c.verify opts s = true := by
  obtain ⟨a, b, ha⟩ :=
    doGenAux_ok_attempt opts required pick fuel g opts.tries 0 0 s m h
  exact (attempt_success_spec opts required pick fuel g a s b ha).2.2

/-- Concrete instance of `do_gen_constraints_verified`. -/
theorem do_gen_constraints_verified_witness :
    Constraint.verify .Number sampleOpts ['0'] = true :=
  do_gen_constraints_verified sampleOpts [.Number] charsStrategy 10 (fun _ => 0)
    ['0'] 1 (by decide) .Number (by decide)

/-- Claim C9: under a fixed random source `do_gen` is deterministic: two runs
with equal `opts`, equal required list, equal strategy (and fuel), and
pointwise-equal random streams return the same result (same password and same
attempt count). -/
theorem do_gen_deterministic (opts : Opts) (required : List Constraint)
    (pick : Strategy) (fuel : Nat) (g g' : Rng) (h : ∀ n, g n = g' n) :
    do_gen opts required pick fuel g = do_gen opts required pick fuel g' := by
  have hg : g = g' := funext h
  rw [hg]

/-- Concrete instance of `do_gen_deterministic`: two syntactically different
but pointwise-equal streams give the same run. -/
theorem do_gen_deterministic_witness :
    do_gen sampleOpts [.Number] charsStrategy 10 (fun _ => 0) =
      do_gen sampleOpts [.Number] charsStrategy 10 (fun n => n * 0) :=
  do_gen_deterministic sampleOpts [.Number] charsStrategy 10 (fun _ => 0)
    (fun n => n * 0) (fun n => (Nat.mul_zero n).symm)

theorem doGenAux_ok_spec (opts : Opts) (required : List Constraint)
    (pick : Strategy) (fuel : Nat) (g : Rng) :
    ∀ n k i s m, doGenAux opts required pick fuel n k g i = .ok s m →
      k < m ∧ m ≤ k + n ∧
      ∃ a b, failRun opts required pick fuel g (m - k - 1) i = some a ∧
        attempt opts required pick fuel g a = .success s b := by
  intro n
  induction n with
  | zero => intro k i s m h; simp [doGenAux] at h
  | succ n ih =>
    intro k i s m h
    simp only [doGenAux] at h
    revert h
    cases ha : attempt opts required pick fuel g i with
    | success s0 p =>
      intro h
      dsimp only at h
      injection h with h1 h2
      subst h1
      subst h2
      refine ⟨by omega, by omega, i, p, ?_, ha⟩
      have hz : k + 1 - k - 1 = 0 := by omega
      rw [hz]
      rfl
    | failed i' =>
      intro h
      obtain ⟨h1, h2, a, b, hfr, hs⟩ := ih (k + 1) i' s m h
      refine ⟨by omega, by omega, a, b, ?_, hs⟩
      have hm : m - k - 1 = (m - (k + 1) - 1) + 1 := by omega
      rw [hm]
      simp only [failRun, ha]
      exact hfr
    | panicked => intro h; simp at h
    | fuelOut => intro h; simp at h

theorem failRun_exhausted (opts : Opts) (required : List Constraint)
    (pick : Strategy) (fuel : Nat) (g : Rng) :
    ∀ n i k a, failRun opts required pick fuel g n i = some a →
      doGenAux opts required pick fuel n k g i = .exhausted opts.tries := by
  intro n
  induction n with
  | zero => intro i k a _; rfl
  | succ n ih =>
    intro i k a h
    simp only [failRun] at h
    revert h
    cases ha : attempt opts required pick fuel g i with
    | success s0 p => intro h; simp at h
    | failed i' =>
      intro h
      dsimp only at h
      simp only [doGenAux, ha]
      exact ih i' (k + 1) a h
    | panicked => intro h; simp at h
    | fuelOut => intro h; simp at h

/-- Claim C6: `do_gen` returns the first accepted candidate together with the
1-based count of attempts consumed — every earlier attempt in the run failed
(was rejected by `judgement` or was strategy-aborted, both counted) — and if
no candidate is accepted within `opts.tries` attempts it fails carrying the
attempt budget `opts.tries`, with no further fallback. Strategy aborts
(`strategyAbort` from the build loop) are failed attempts. -/
theorem do_gen_first_success_and_exhaustion (opts : Opts)
    (required : List Constraint) (pick : Strategy) (fuel : Nat) (g : Rng) :
    (∀ s m, do_gen opts required pick fuel g = .ok s m →
      1 ≤ m ∧ m ≤ opts.tries ∧
      ∃ a b, failRun opts required pick fuel g (m - 1) 0 = some a ∧
        attempt opts required pick fuel g a = .success s b) ∧
    (∀ a, failRun opts required pick fuel g opts.tries 0 = some a →
      do_gen opts required pick fuel g = .exhausted opts.tries) ∧
    (∀ i i', build opts required pick fuel [] g i = .strategyAbort i' →
      attempt opts required pick fuel g i = .failed i') := by
  refine ⟨?_, ?_, ?_⟩
  · intro s m h
    obtain ⟨h1, h2, a, b, hfr, hs⟩ :=
      doGenAux_ok_spec opts required pick fuel g opts.tries 0 0 s m h
    exact ⟨by omega, by omega, a, b, hfr, hs⟩
  · intro a h
    exact failRun_exhausted opts required pick fuel g opts.tries 0 0 a h
  · intro i i' hb
    simp only [attempt, hb]

/-- Concrete instance of `do_gen_first_success_and_exhaustion`: a first-try
success, and an exhaustion run (`rejectingOpts` has `min > max`, so both of
its `tries = 2` attempts are rejected). -/
theorem do_gen_first_success_and_exhaustion_witness :
    (1 ≤ 1 ∧ 1 ≤ sampleOpts.tries ∧
      ∃ a b, failRun sampleOpts [.Number] charsStrategy 10 (fun _ => 0) 0 0 = some a ∧
        attempt sampleOpts [.Number] charsStrategy 10 (fun _ => 0) a =
          .success ['0'] b) ∧
    do_gen rejectingOpts [.Number] charsStrategy 10 (fun _ => 0) =
      .exhausted rejectingOpts.tries :=
  ⟨(do_gen_first_success_and_exhaustion sampleOpts [.Number] charsStrategy 10
      (fun _ => 0)).1 ['0'] 1 (by decide),
   (do_gen_first_success_and_exhaustion rejectingOpts [.Number] charsStrategy 10
      (fun _ => 0)).2.1 12 (by decide)⟩

end GenPw

namespace GenPw

theorem if_range_bounds (b : Bool) :
    ∀ c ∈ rangeList (if b then LOWER_CASE_LETTERS else UPPER_CASE_LETTERS),
      c ≠ 'z' ∧ c ≠ 'Z' ∧ (b = true → 'a' ≤ c ∧ c < 'z') ∧
        (b = false → 'A' ≤ c ∧ c < 'Z') := by
  cases b <;> decide

/-- Claim C5: generated characters respect the exclusive upper bounds of the
character ranges. Every character appended by the character strategy lies in
the configured half-open range, so `z` and `Z` never appear in
strategy-picked positions; and every Number-constraint step appends a digit
in `'0'..'9'` exclusive, so `9` is never appended. -/
theorem chars_and_number_exclusive_bounds :
    (∀ (s : List Char) (g : Rng) (i : Nat) (b : Bool) (s' : List Char) (i' : Nat),
      charsStrategy s g i b = (some s', i') →
      ∃ c, s' = s ++ [c] ∧ c ≠ 'z' ∧ c ≠ 'Z' ∧
        (b = true → 'a' ≤ c ∧ c < 'z') ∧ (b = false → 'A' ≤ c ∧ c < 'Z')) ∧
    (∀ (opts : Opts) (pick : Strategy) (s : List Char) (g : Rng) (i : Nat)
      (s' : List Char) (i' : Nat),
      constraintStep opts pick .Number s g i = .cont s' i' →
      ∃ c, s' = s ++ [c] ∧ '0' ≤ c ∧ c < '9' ∧ c ≠ '9') := by
  constructor
  · intro s g i b s' i' h
    simp only [charsStrategy] at h
    have hne : rangeList (if b then LOWER_CASE_LETTERS else UPPER_CASE_LETTERS) ≠ [] := by
      cases b <;> decide
    obtain ⟨a, hcu, hmem⟩ := chooseUniform_ne_nil _ hne g i
    rw [hcu] at h
    dsimp only at h
    rw [Prod.mk.injEq] at h
    obtain ⟨h1, h2⟩ := h
    injection h1 with h1
    exact ⟨a, h1.symm, if_range_bounds b a hmem⟩
  · intro opts pick s g i s' i' h
    simp only [constraintStep] at h
    have hne : rangeList NUMBERS ≠ [] := by decide
    obtain ⟨a, hcu, hmem⟩ := chooseUniform_ne_nil _ hne g i
    rw [hcu] at h
    dsimp only at h
    injection h with h1 h2
    exact ⟨a, h1.symm, numbers_range_bounds a hmem⟩

/-- Concrete instance of `chars_and_number_exclusive_bounds`. -/
theorem chars_and_number_exclusive_bounds_witness :
    (∃ c, ['a'] = ([] : List Char) ++ [c] ∧ c ≠ 'z' ∧ c ≠ 'Z' ∧
      (true = true → 'a' ≤ c ∧ c < 'z') ∧ (true = false → 'A' ≤ c ∧ c < 'Z')) ∧
    (∃ c, ['0'] = ([] : List Char) ++ [c] ∧ '0' ≤ c ∧ c < '9' ∧ c ≠ '9') :=
  ⟨chars_and_number_exclusive_bounds.1 [] (fun _ => 0) 0 true ['a'] 1 (by decide),
   chars_and_number_exclusive_bounds.2 sampleOpts charsStrategy [] (fun _ => 0) 0
     ['0'] 1 (by decide)⟩

/-- Claim C8: the effective-required list equals the caller-supplied require
list (or the full list of four constraint kinds when the require list is
empty) with every excluded constraint removed; in particular, with empty
require and `exclude = [Number]` it is exactly
`[LowerCaseLetter, UpperCaseLetter, Symbol]`. -/
theorem effective_required_spec :
    (∀ (opts : Opts) (c : Constraint),
      c ∈ effective_required opts ↔
        c ∈ (if opts.require.isEmpty then Constraint.value_variants
             else opts.require) ∧ c ∉ opts.exclude) ∧
    effective_required ⟨10, 20, [], [.Number], SYMBOLS, 1000⟩ =
      [.LowerCaseLetter, .UpperCaseLetter, .Symbol] := by
  constructor
  · intro opts c
    simp [effective_required, List.mem_filter]
  · decide

/-- Claim C10: when `opts.symbols` is empty and the Symbol constraint is drawn
during an attempt, the `unwrap` on the symbol chooser fails: the build step
panics, and `do_gen` surfaces the panic (rather than rejecting the attempt or
returning an error). -/
theorem empty_symbols_symbol_panics (opts : Opts) (required : List Constraint)
    (pick : Strategy) (fuel : Nat) (hsym : opts.symbols = []) :
    (∀ (s : List Char) (g : Rng) (i : Nat), byteLen s < opts.min →
      required.get? (g i % required.length) = some .Symbol →
      build opts required pick (fuel + 1) s g i = .panicked) ∧
    (∀ g : Rng, 0 < opts.min → 0 < opts.tries →
      required.get? (g 0 % required.length) = some .Symbol →
      do_gen opts required pick (fuel + 1) g = .panicked) := by
  have hstep : ∀ (s : List Char) (g : Rng) (i : Nat),
      constraintStep opts pick Constraint.Symbol s g i = .panicked := by
    intro s g i
    simp [constraintStep, hsym, chooseUniform]
  have hbuild : ∀ (s : List Char) (g : Rng) (i : Nat), byteLen s < opts.min →
      required.get? (g i % required.length) = some .Symbol →
      build opts required pick (fuel + 1) s g i = .panicked := by
    intro s g i hlen hreq
    simp only [build, if_pos hlen, hreq, hstep]
  refine ⟨hbuild, ?_⟩
  intro g hmin htries hreq
  have hb : build opts required pick (fuel + 1) [] g 0 = .panicked :=
    hbuild [] g 0 (by simpa [byteLen] using hmin) hreq
  have hatt : attempt opts required pick (fuel + 1) g 0 = .panicked := by
    simp only [attempt, hb]
  cases htn : opts.tries with
  | zero => omega
  | succ n => simp only [do_gen, htn, doGenAux, hatt]

/-- Concrete instance of `empty_symbols_symbol_panics`. -/
theorem empty_symbols_symbol_panics_witness :
    do_gen emptySymbolOpts [Constraint.Symbol] charsStrategy 1 (fun _ => 0) =
      .panicked :=
  (empty_symbols_symbol_panics emptySymbolOpts [.Symbol] charsStrategy 0 rfl).2
    (fun _ => 0) (by decide) (by decide) (by decide)

end GenPw

namespace GenPw

/-- Claim C3 (code bug): the dictionary-mode word filter keeps `alphabetWord`
(26 bytes, non-empty, apostrophe-free) even with `opts.max = 20`: in the
source, `!s.len() > opts.max` parses as `(!s.len()) > opts.max` (bitwise
complement of the length), which holds for every realistic length, so the
length-at-most-max part of the filter is not enforced. -/
theorem word_filter_keeps_overlong_word :
    filterWords 20 [alphabetWord] = [alphabetWord] ∧
    byteLen alphabetWord = 26 ∧ ¬(byteLen alphabetWord ≤ 20) ∧
    alphabetWord ≠ [] ∧ alphabetWord.contains (Char.ofNat 39) = false := by
  decide

theorem dictPick_no_fit (words : List (List Char)) (maxLen : Nat)
    (lf uf : Char → List Char) (s : List Char) (b : Bool)
    (hnofit : ∀ w ∈ words, maxLen < byteLen w + byteLen s) :
    ∀ (fuel : Nat) (g : Rng) (i : Nat), words ≠ [] →
      dictPick words maxLen lf uf fuel s g i b = .fuelOut := by
  intro fuel
  induction fuel with
  | zero => intro g i _; rfl
  | succ fuel ih =>
    intro g i hne
    obtain ⟨w, hcu, hmem⟩ := chooseUniform_ne_nil words hne g i
    simp only [dictPick, hcu]
    rw [if_neg (by have := hnofit w hmem; omega)]
    exact ih g (i + 1) hne

/-- Claim C4 counterexample: with the non-empty word list `[unfittingWord]`
(one 4-byte word) and a 3-byte budget, the dictionary strategy's
resampling-until-fits loop never terminates: at every fuel bound it is still
running (`fuelOut`), so there is no cap and no strategy-failure report. -/
theorem dict_pick_unbounded_counterexample :
    ¬ ∃ n, dictPick [unfittingWord] 3 idFold idFold n [] (fun _ => 0) 0 true ≠
        .fuelOut := by
  rintro ⟨n, hn⟩
  exact hn (dictPick_no_fit [unfittingWord] 3 idFold idFold [] true (by decide)
    n (fun _ => 0) 0 (by decide))

/-- Claim C4 (amended): the dictionary strategy's resampling-until-fits loop
has no cap. It reports strategy failure (`aborted`, which aborts only the
current attempt) exactly when the word list is empty; when the word list is
non-empty and no word fits the remaining byte budget, the loop never
terminates (it is `fuelOut` at every fuel bound). -/
theorem dict_pick_unbounded_loop (words : List (List Char)) (maxLen : Nat)
    (lf uf : Char → List Char) (s : List Char) (g : Rng) (b : Bool) :
    (words = [] → ∀ (fuel i : Nat),
      dictPick words maxLen lf uf (fuel + 1) s g i b = .aborted i) ∧
    (words ≠ [] → (∀ w ∈ words, maxLen < byteLen w + byteLen s) →
      ∀ (fuel i : Nat), dictPick words maxLen lf uf fuel s g i b = .fuelOut) := by
  constructor
  · intro hnil fuel i
    subst hnil
    simp [dictPick, chooseUniform]
  · intro hne hnofit fuel i
    exact dictPick_no_fit words maxLen lf uf s b hnofit fuel g i hne

/-- Concrete instance of `dict_pick_unbounded_loop`: abort on the empty word
list, eternal resampling on a non-fitting non-empty one. -/
theorem dict_pick_unbounded_loop_witness :
    dictPick [] 3 idFold idFold 1 [] (fun _ => 0) 0 true = .aborted 0 ∧
    dictPick [unfittingWord] 3 idFold idFold 2 [] (fun _ => 0) 0 true = .fuelOut :=
  ⟨(dict_pick_unbounded_loop [] 3 idFold idFold [] (fun _ => 0) true).1 rfl 0 0,
   (dict_pick_unbounded_loop [unfittingWord] 3 idFold idFold [] (fun _ => 0)
      true).2 (by decide) (by decide) 2 0⟩

/-- Claim C7: every word appended by the dictionary strategy contributes the
requested-case folding of its first character followed by the remaining
characters of the word verbatim (no case-folding of the rest). -/
theorem dict_pick_folds_first_char_only (words : List (List Char)) (maxLen : Nat)
    (lf uf : Char → List Char) (s : List Char) (g : Rng) (b : Bool) :
    ∀ (fuel i : Nat) (s' : List Char) (i' : Nat),
      dictPick words maxLen lf uf fuel s g i b = .success s' i' →
      ∃ first rest, (first :: rest) ∈ words ∧
        byteLen (first :: rest) + byteLen s ≤ maxLen ∧
        s' = s ++ (if b then lf first else uf first) ++ rest := by
  intro fuel
  induction fuel with
  | zero => intro i s' i' h; simp [dictPick] at h
  | succ fuel ih =>
    intro i s' i' h
    simp only [dictPick] at h
    revert h
    cases hcu : chooseUniform words g i with
    | mk o p =>
      cases o with
      | none => intro h; simp at h
      | some w =>
        intro h
        dsimp only at h
        by_cases hfit : byteLen w + byteLen s ≤ maxLen
        · rw [if_pos hfit] at h
          cases w with
          | nil => simp at h
          | cons first rest =>
            injection h with h1 h2
            exact ⟨first, rest, chooseUniform_some_mem hcu, hfit, h1.symm⟩
        · rw [if_neg hfit] at h
          exact ih p s' i' h

/-- Concrete instance of `dict_pick_folds_first_char_only`. -/
theorem dict_pick_folds_first_char_only_witness :
    ∃ first rest, (first :: rest) ∈ [['c', 'a', 't']] ∧
      byteLen (first :: rest) + byteLen ([] : List Char) ≤ 5 ∧
      ['c', 'a', 't'] = ([] : List Char) ++
        (if true then idFold first else idFold first) ++ rest :=
  dict_pick_folds_first_char_only [['c', 'a', 't']] 5 idFold idFold []
    (fun _ => 0) true 1 0 ['c', 'a', 't'] 1 (by decide)

end GenPw
